import Mathlib

/-!
Verification of the SIYB GYB coach (`app.py`): a BM25-style retrieval
pipeline, a question-detection heuristic, context composition for the
language oracle, and the staged dialogue loop of `main`.

Python text values are embedded as lists of characters (`Str`), Python
dicts with string keys as association lists with insert-or-overwrite
updates, and the external language-generation calls as parameters of
type `... → Except Unit Str` (`Except.error` standing for a raised
exception from the client call).
-/

abbrev Str := List Char

/-- Characters matched by the regex class `\w` (over the ASCII inputs the
program handles): alphanumerics and underscore. -/
def isWordChar (c : Char) : Bool := c.isAlphanum || c = '_'

/-- `str.lower()`. -/
def lowerStr (s : Str) : Str := s.map Char.toLower

/-- `str.strip()`: drop whitespace from both ends. -/
def pyStrip (s : Str) : Str :=
  ((s.dropWhile Char.isWhitespace).reverse.dropWhile Char.isWhitespace).reverse

/-- Splits a character list into maximal runs of word characters,
accumulating the current run in reverse in `cur`. -/
def tokenizeGo (cur : Str) : Str → List Str
  | [] => if cur = [] then [] else [cur.reverse]
  | c :: cs =>
    if isWordChar c then tokenizeGo (c :: cur) cs
    else if cur = [] then tokenizeGo [] cs
    else cur.reverse :: tokenizeGo [] cs

/-- `_tokenize` (src/app.py:19-21): `re.findall(r"\w+", text.lower())` —
lower-case, then the maximal runs of word characters. -/
def pyTokenize (text : Str) : List Str := tokenizeGo [] (lowerStr text)

/-- The tuple of question starters in `looks_like_question`
(src/app.py:84-87); the last seven entries carry a trailing space in the
source, the first seven do not. -/
def starters : List Str :=
  [ "how".toList, "what".toList, "why".toList, "when".toList,
    "where".toList, "who".toList, "which".toList,
    "can ".toList, "could ".toList, "should ".toList, "is ".toList,
    "are ".toList, "do ".toList, "does ".toList ]

/-- `looks_like_question` (src/app.py:77-88): false for empty text, else
strip and lower-case, then true when the text ends in `?` or starts with
one of the `starters`. -/
def looks_like_question (text : Str) : Bool :=
  if text = [] then false
  else
    let t := lowerStr (pyStrip text)
    if "?".toList.isSuffixOf t then true
    else starters.any (fun s => s.isPrefixOf t)

/-- Python dict over string keys, as an insertion-ordered association
list whose keys are kept distinct by `dictInsert`. -/
abbrev Dict := List (String × Str)

/-- `d[k] = v`: overwrite in place when the key is present, append
otherwise (Python dict update semantics). -/
def dictInsert (d : Dict) (k : String) (v : Str) : Dict :=
  match d with
  | [] => [(k, v)]
  | (k', v') :: rest =>
    if k' = k then (k, v) :: rest else (k', v') :: dictInsert rest k v

/-- `d.get(k, default)`. -/
def dictGet (d : Dict) (k : String) (default : Str) : Str :=
  match d with
  | [] => default
  | (k', v) :: rest => if k' = k then v else dictGet rest k default

/-- One corpus record of `gyb_chunks.json`: a JSON object of which the
program reads only the `content` field, possibly absent. -/
structure Record where
  content : Option Str
deriving DecidableEq

/-- The loop building `CORPUS_TOKENS` (src/app.py:36-42): every snippet
contributes `_tokenize(snippet.get("content", ""))`, absent `content`
included as the empty text. -/
def corpusTokens (corpus : List Record) : List (List Str) :=
  corpus.map (fun r => pyTokenize (r.content.getD []))

/-- What §7 of the spec prescribes for malformed records: records lacking
a `content` field are skipped, the rest are tokenized as usual. Stated
from the spec's words, for comparison with `corpusTokens`. -/
def corpusTokensSkipping (corpus : List Record) : List (List Str) :=
  (corpus.filter (fun r => r.content.isSome)).map
    (fun r => pyTokenize (r.content.getD []))

/-- BM25 saturation constant `k1` (spec §4.2 default). -/
def bm25K1 : ℝ := 1.5

/-- BM25 length-normalization constant `b` (spec §4.2 default). -/
def bm25B : ℝ := 0.75

/-- Modelled from the spec: the scoring of `BM25Okapi.get_scores` lives in
the external `rank_bm25` package, whose code is not part of this
repository; §4.2 gives the inverse document frequency as
`idf(t) = ln((N - df(t) + 0.5) / (df(t) + 0.5) + 1)`. -/
noncomputable def bm25Idf (docs : List (List Str)) (t : Str) : ℝ :=
  let N : ℝ := docs.length
  let df : ℝ := docs.countP (fun d => decide (t ∈ d))
  Real.log ((N - df + 0.5) / (df + 0.5) + 1)

/-- Modelled from the spec: the mean passage length `avgdl` of §4.2 over
the index's token lists. -/
noncomputable def bm25Avgdl (docs : List (List Str)) : ℝ :=
  (docs.map (fun d => (d.length : ℝ))).sum / docs.length

/-- Modelled from the spec: the per-term summand of §4.2,
`tf * (k1 + 1) / (tf + k1 * (1 - b + b * |d| / avgdl)) * idf(t)`,
with `tf` the term's count in the passage. -/
noncomputable def bm25TermScore (docs : List (List Str)) (t : Str) (d : List Str) : ℝ :=
  let tf : ℝ := d.count t
  tf * (bm25K1 + 1) / (tf + bm25K1 * (1 - bm25B + bm25B * d.length / bm25Avgdl docs))
    * bm25Idf docs t

/-- Modelled from the spec: a passage's relevance score, the sum of the
per-term summands over the query's distinct terms (`BM25Okapi.get_scores`
is not in src/). A term absent from the passage contributes zero. -/
noncomputable def bm25Score (docs : List (List Str)) (q : List Str) (d : List Str) : ℝ :=
  (q.dedup.map (fun t => bm25TermScore docs t d)).sum

/-- The order produced by Python's stable descending sort
`sorted(enumerate(scores), key=lambda x: x[1], reverse=True)`
(src/app.py:59): higher score first, equal scores kept in original index
order. On the distinct indices of `enumerate` this is a linear order, so
the stable sort's output is exactly the `mergeSort` by this relation. -/
noncomputable def rankLE (a b : ℕ × ℝ) : Bool :=
  decide (b.2 < a.2 ∨ (a.2 = b.2 ∧ a.1 ≤ b.1))

/-- `get_relevant_snippets` (src/app.py:45-72), returning each kept
snippet as its corpus index paired with its score (the code returns a
copy of the snippet dict with a `score` key added; index and score carry
the same information). The loop keeps, in ranked order, the entries with
score not below `min_score`, stopping after `k`. -/
noncomputable def get_relevant_snippets (corpus : List Record) (query : Str)
    (k : ℕ) (min_score : ℝ) : List (ℕ × ℝ) :=
  if query = [] ∨ corpus = [] then []
  else
    let docs := corpusTokens corpus
    let qtoks := pyTokenize query
    let scores := docs.map (fun d => bm25Score docs qtoks d)
    let ranked := scores.enum.mergeSort rankLE
    (ranked.filter (fun p => decide (min_score ≤ p.2))).take k

/-- The fixed fallback context of `llm_feedback` (src/app.py:107). -/
def fallbackContext : Str :=
  "No relevant chunks found. Give general GYB advice.".toList

/-- The retrieval query of `llm_feedback` (src/app.py:98-99):
`f"Stage: {stage}. Idea: {idea}. Learner text: {user_answer}"` with
`idea = gyb_data.get("idea", "")`. -/
def retrievalQuery (stage : String) (data : Dict) (user_answer : Str) : Str :=
  "Stage: ".toList ++ stage.toList ++ ". Idea: ".toList
    ++ dictGet data "idea" [] ++ ". Learner text: ".toList ++ user_answer

/-- The `content` field of the corpus record at index `i`. A record
lacking `content` scores zero, below the 0.5 threshold, so it is never
among the returned chunks; the default only totalizes the lookup. -/
def contentAt (corpus : List Record) (i : ℕ) : Str :=
  (corpus.getD i ⟨none⟩).content.getD []

/-- One bulleted line of the context block (src/app.py:105):
`f"- {c['content'][:300]}..."`. -/
def bulletLine (content : Str) : Str :=
  "- ".toList ++ content.take 300 ++ "...".toList

/-- The context block computed inside `llm_feedback` (src/app.py:95-107):
the bulleted, 300-character-truncated chunk contents joined by blank
lines when retrieval returned chunks, the fixed fallback text otherwise. -/
noncomputable def llm_feedback_context (corpus : List Record) (stage : String)
    (user_answer : Str) (data : Dict) : Str :=
  match get_relevant_snippets corpus (retrievalQuery stage data user_answer) 3 (1/2) with
  | [] => fallbackContext
  | c :: cs =>
    List.intercalate "\n\n".toList ((c :: cs).map (fun p => bulletLine (contentAt corpus p.1)))

/-- One transcript entry of `st.session_state.messages`. -/
structure Msg where
  role : String
  content : Str
deriving DecidableEq

/-- The Streamlit session state of `main` (src/app.py:174-185): stage,
transcript, collected fields, optional summary, and the pending
question. -/
structure AppState where
  stage : String
  messages : List Msg
  data : Dict
  summary : Option Str
  last_question : Str
deriving DecidableEq

/-- The seeded opening question (src/app.py:179-181). -/
def qBackground : Str :=
  "First, tell me about yourself — skills, experience, situation?".toList

/-- The fixed question introducing `ask_idea` (src/app.py:213). -/
def qIdea : Str := "Great — now describe one business idea you have?".toList

/-- The fixed question introducing `ask_customers` (src/app.py:223). -/
def qCustomers : Str := "Nice. Who are your main customers?".toList

/-- The fixed question introducing `ask_competitors` (src/app.py:233). -/
def qCompetitors : Str := "Now tell me about your competitors.".toList

/-- The fixed question introducing `ask_location` (src/app.py:243). -/
def qLocation : Str :=
  "Where will you run this business (home, shop, online)?".toList

/-- The fixed notice appended on finishing (src/app.py:256). -/
def summaryNotice : Str := "Here is your SIYB summary below:".toList

/-- The freshly initialized session (src/app.py:174-185). -/
def initState : AppState :=
  { stage := "ask_background"
    messages := [⟨"assistant", "Assalam o alaikum! 👋\n\n".toList ++ qBackground⟩]
    data := []
    summary := none
    last_question := qBackground }

/-- One turn of `main` on a submitted input (src/app.py:192-263). The
two oracle-backed helpers are passed as parameters: `llm` abstracts
`llm_feedback(stage, user_input, data)` (its context computation is
`llm_feedback_context`) and `gen` abstracts `generate_summary(data)`;
`Except.error` is a raised exception from the external client call, at
which point execution aborts with the mutations made so far kept (the
dict write precedes the call in every guided branch). -/
def mainTurn (llm : String → Str → Dict → Except Unit Str)
    (gen : Dict → Except Unit Str) (st : AppState) (user_input : Str) : AppState :=
  let msgs := st.messages ++ [⟨"user", user_input⟩]
  let stage := st.stage
  let data := st.data
  if stage ≠ "finished" ∧ looks_like_question user_input then
    match llm "general" user_input data with
    | Except.error _ => { st with messages := msgs }
    | Except.ok reply =>
      { st with messages :=
          msgs ++ [⟨"assistant", reply⟩, ⟨"assistant", st.last_question⟩] }
  else if stage = "ask_background" then
    let d := dictInsert data "background" user_input
    match llm stage user_input d with
    | Except.error _ => { st with messages := msgs, data := d }
    | Except.ok fb =>
      { st with messages := msgs ++ [⟨"assistant", fb⟩, ⟨"assistant", qIdea⟩]
                data := d, last_question := qIdea, stage := "ask_idea" }
  else if stage = "ask_idea" then
    let d := dictInsert data "idea" user_input
    match llm stage user_input d with
    | Except.error _ => { st with messages := msgs, data := d }
    | Except.ok fb =>
      { st with messages := msgs ++ [⟨"assistant", fb⟩, ⟨"assistant", qCustomers⟩]
                data := d, last_question := qCustomers, stage := "ask_customers" }
  else if stage = "ask_customers" then
    let d := dictInsert data "customers" user_input
    match llm stage user_input d with
    | Except.error _ => { st with messages := msgs, data := d }
    | Except.ok fb =>
      { st with messages := msgs ++ [⟨"assistant", fb⟩, ⟨"assistant", qCompetitors⟩]
                data := d, last_question := qCompetitors, stage := "ask_competitors" }
  else if stage = "ask_competitors" then
    let d := dictInsert data "competitors" user_input
    match llm stage user_input d with
    | Except.error _ => { st with messages := msgs, data := d }
    | Except.ok fb =>
      { st with messages := msgs ++ [⟨"assistant", fb⟩, ⟨"assistant", qLocation⟩]
                data := d, last_question := qLocation, stage := "ask_location" }
  else if stage = "ask_location" then
    let d := dictInsert data "location" user_input
    match llm stage user_input d with
    | Except.error _ => { st with messages := msgs, data := d }
    | Except.ok fb =>
      match gen d with
      | Except.error _ =>
        { st with messages := msgs ++ [⟨"assistant", fb⟩], data := d }
      | Except.ok s =>
        { st with messages :=
            msgs ++ [⟨"assistant", fb⟩, ⟨"assistant", summaryNotice⟩]
                  data := d, summary := some s, stage := "finished" }
  else
    match llm "general" user_input data with
    | Except.error _ => { st with messages := msgs }
    | Except.ok fb => { st with messages := msgs ++ [⟨"assistant", fb⟩] }

/-- A session run: the turns of `main` folded over a list of inputs,
starting from the fresh session. -/
def runTurns (llm : String → Str → Dict → Except Unit Str)
    (gen : Dict → Except Unit Str) (inputs : List Str) : AppState :=
  inputs.foldl (mainTurn llm gen) initState

/-- The stage sequence in visiting order. -/
def stageSeq : List String :=
  ["ask_background", "ask_idea", "ask_customers", "ask_competitors",
   "ask_location", "finished"]

/-- The collected-field key written by each guided stage, in order. -/
def fieldSeq : List String :=
  ["background", "idea", "customers", "competitors", "location"]

/-- The field key a guided stage writes (src/app.py:209,219,229,239,249). -/
def fieldOf (stage : String) : String :=
  if stage = "ask_background" then "background"
  else if stage = "ask_idea" then "idea"
  else if stage = "ask_customers" then "customers"
  else if stage = "ask_competitors" then "competitors"
  else "location"

/-- Dropping whitespace from the front and back of a text that ends in
`?` leaves a text that still ends in `?`. -/
lemma pyStrip_ends_q (ys : Str) :
    ∃ zs, pyStrip (ys ++ "?".toList) = zs ++ "?".toList := by
  unfold pyStrip
  rw [List.dropWhile_append]
  by_cases hys : (List.dropWhile Char.isWhitespace ys).isEmpty
  · exact ⟨[], by rw [if_pos hys]; decide⟩
  · refine ⟨List.dropWhile Char.isWhitespace ys, ?_⟩
    rw [if_neg hys, List.reverse_append]
    simp [List.dropWhile_cons]

/-- Lower-casing maps over appends. -/
lemma lowerStr_append (a b : Str) : lowerStr (a ++ b) = lowerStr a ++ lowerStr b :=
  List.map_append _ a b

/-- A text ending in `?` still ends in `?` after stripping and
lower-casing. -/
lemma ends_q_strip_lower (text : Str) (h : "?".toList.isSuffixOf text = true) :
    "?".toList.isSuffixOf (lowerStr (pyStrip text)) = true := by
  rw [List.isSuffixOf_iff_suffix] at h ⊢
  obtain ⟨ys, rfl⟩ := h
  obtain ⟨zs, hz⟩ := pyStrip_ends_q ys
  refine ⟨lowerStr zs, ?_⟩
  rw [hz, lowerStr_append]
  rfl

/-- The fourteen interrogative/modal lead words the spec's classifier
contract enumerates, without trailing spaces. -/
def leadWords : List Str :=
  ["how".toList, "what".toList, "why".toList, "when".toList, "where".toList,
   "who".toList, "which".toList, "can".toList, "could".toList,
   "should".toList, "is".toList, "are".toList, "do".toList, "does".toList]

/-- `t` starts with the lead word `w` followed by a word boundary: `w` is
a prefix and the following character, if any, is not a word character. -/
def startsWithLeadWord (t w : Str) : Bool :=
  w.isPrefixOf t &&
    (match t.drop w.length with
     | [] => true
     | c :: _ => !isWordChar c)

/-- The classifier contract as the spec words it: true exactly when the
trimmed, lower-cased input ends with `?` or starts with a lead word
followed by a word boundary; false for empty input. Stated from the
spec's words, for comparison with `looks_like_question`. -/
def looksLikeQuestionSpec (text : Str) : Bool :=
  decide (text ≠ []) &&
    ("?".toList.isSuffixOf (lowerStr (pyStrip text)) ||
      leadWords.any (fun w => startsWithLeadWord (lowerStr (pyStrip text)) w))

/-- C5 fails as stated: on "howdy partner" the code's classifier answers
true ("howdy" merely starts with the prefix "how"), while "how" is not
followed by a word boundary, so the spec's contract answers false. -/
theorem C5_counterexample :
    looks_like_question "howdy partner".toList = true ∧
    looksLikeQuestionSpec "howdy partner".toList = false := by decide

/-- C5 amended: `looks_like_question` is true exactly when the trimmed,
lower-cased input ends in `?` or starts with one of the seven bare
prefixes how/what/why/when/where/who/which or one of the seven
space-terminated starters "can ", "could ", "should ", "is ", "are ",
"do ", "does "; it is false on empty input, and every input ending in
`?` is classified as a question. -/
theorem C5_amended (text : Str) :
    (looks_like_question text = true ↔
      text ≠ [] ∧
        ("?".toList.isSuffixOf (lowerStr (pyStrip text)) = true ∨
          ∃ s ∈ starters, s.isPrefixOf (lowerStr (pyStrip text)) = true)) ∧
    ("?".toList.isSuffixOf text = true → looks_like_question text = true) := by
  constructor
  · unfold looks_like_question
    by_cases h : text = []
    · simp [h]
    · rw [if_neg h]
      by_cases hq : "?".toList.isSuffixOf (lowerStr (pyStrip text)) = true
      · simp [hq, h]
      · simp [hq, h, List.any_eq_true]
  · intro h
    have h2 := ends_q_strip_lower text h
    have hne : text ≠ [] := by
      rintro rfl
      rw [List.isSuffixOf_iff_suffix] at h
      obtain ⟨t, ht⟩ := h
      simpa using congrArg List.length ht
    unfold looks_like_question
    rw [if_neg hne]
    simp only [h2, if_true]

/-- C10: a non-empty, all-whitespace input is classified as not a
question: it strips to the empty text, which neither ends in `?` nor
starts with any starter. -/
theorem C10_whitespace_not_question (text : Str) (hne : text ≠ [])
    (hws : ∀ c ∈ text, c.isWhitespace = true) :
    looks_like_question text = false := by
  have hstrip : pyStrip text = [] := by
    unfold pyStrip
    rw [List.dropWhile_eq_nil_iff.mpr hws]
    rfl
  unfold looks_like_question
  rw [if_neg hne, hstrip]
  decide

/-- C10 at a concrete input: three spaces are not a question. -/
theorem C10_whitespace_not_question_witness :
    looks_like_question "   ".toList = false :=
  C10_whitespace_not_question "   ".toList (by decide) (by decide)

/-- C7 fails as stated: a record lacking `content` is not skipped — it
enters the index as an empty token list, so on a two-record corpus the
built index has two entries where the spec's skipping semantics keeps
one. -/
theorem C7_counterexample :
    corpusTokens [⟨none⟩, ⟨some "hello".toList⟩] ≠
        corpusTokensSkipping [⟨none⟩, ⟨some "hello".toList⟩] ∧
    (corpusTokens [⟨none⟩, ⟨some "hello".toList⟩]).length = 2 ∧
    (corpusTokensSkipping [⟨none⟩, ⟨some "hello".toList⟩]).length = 1 := by
  decide

/-- C7 amended: a record lacking `content` is kept, contributing an
empty token list to the index (so it still counts toward the passage
count and the length statistics); every other record tokenizes as usual,
and no record aborts the loading of the rest. -/
theorem C7_amended (corpus : List Record) :
    (corpusTokens corpus).length = corpus.length ∧
    (∀ (i : ℕ) (r : Record), corpus[i]? = some r →
      (corpusTokens corpus)[i]? = some (pyTokenize (r.content.getD []))) ∧
    (∀ i : ℕ, corpus[i]? = some ⟨none⟩ → (corpusTokens corpus)[i]? = some []) := by
  refine ⟨List.length_map _ _, ?_, ?_⟩
  · intro i r h
    rw [corpusTokens, List.getElem?_map, h]
    rfl
  · intro i h
    rw [corpusTokens, List.getElem?_map, h]
    rfl

/-- C4: a side-question turn at a non-finished stage (oracle succeeding)
leaves stage, collected fields and the pending question unchanged and
re-emits the pending question as the final message of the turn. -/
theorem C4_side_question (llm : String → Str → Dict → Str)
    (gen : Dict → Except Unit Str) (st : AppState) (input : Str)
    (hst : st.stage ≠ "finished") (hq : looks_like_question input = true) :
    (mainTurn (fun s i d => Except.ok (llm s i d)) gen st input).stage = st.stage ∧
    (mainTurn (fun s i d => Except.ok (llm s i d)) gen st input).data = st.data ∧
    (mainTurn (fun s i d => Except.ok (llm s i d)) gen st input).last_question
        = st.last_question ∧
    (mainTurn (fun s i d => Except.ok (llm s i d)) gen st input).messages
        = st.messages ++ [⟨"user", input⟩,
            ⟨"assistant", llm "general" input st.data⟩,
            ⟨"assistant", st.last_question⟩] := by
  simp [mainTurn, hst, hq]

/-- C4 at a concrete input: a question turn on the fresh session keeps
the stage. -/
theorem C4_side_question_witness :
    (mainTurn (fun _ _ _ => Except.ok "reply".toList)
        (fun _ => Except.ok "sum".toList) initState "what is this?".toList).stage
      = initState.stage :=
  (C4_side_question (fun _ _ _ => "reply".toList) (fun _ => Except.ok "sum".toList)
    initState "what is this?".toList (by decide) (by decide)).1

/-- An oracle stub whose every call raises. -/
def failingOracle : String → Str → Dict → Except Unit Str :=
  fun _ _ _ => Except.error ()

/-- A summary generator stub whose every call raises. -/
def failingGen : Dict → Except Unit Str := fun _ => Except.error ()

/-- A session mid-flow at `ask_customers` with two fields collected. -/
def c3FailState : AppState :=
  { stage := "ask_customers"
    messages := []
    data := [("background", "b".toList), ("idea", "i".toList)]
    summary := none
    last_question := qCustomers }

/-- C3 fails as stated: when the oracle call of a guided `ask_customers`
turn raises, `collectedFields` has already gained the `customers` key
(the dict write precedes the call, src/app.py:229-230), and no failure
message is appended to the transcript — only the user's own message. The
stage does remain `ask_customers`. -/
theorem C3_counterexample :
    "customers" ∈ (mainTurn failingOracle failingGen c3FailState
        "local families".toList).data.map Prod.fst ∧
    (mainTurn failingOracle failingGen c3FailState
        "local families".toList).messages = [⟨"user", "local families".toList⟩] ∧
    (mainTurn failingOracle failingGen c3FailState
        "local families".toList).stage = "ask_customers" := by
  decide

/-- C3 amended: when the oracle call of a guided turn raises, the turn
aborts with `stage`, `pendingQuestion` and `summary` unchanged and no
failure message appended (the transcript gains only the user's message),
but the current stage's field has already been written into
`collectedFields`. -/
theorem C3_amended (llm : String → Str → Dict → Except Unit Str)
    (gen : Dict → Except Unit Str) (st : AppState) (input : Str)
    (hg : st.stage ∈ ["ask_background", "ask_idea", "ask_customers",
      "ask_competitors", "ask_location"])
    (hq : looks_like_question input = false)
    (hfail : llm st.stage input (dictInsert st.data (fieldOf st.stage) input)
        = Except.error ()) :
    mainTurn llm gen st input =
      { st with messages := st.messages ++ [⟨"user", input⟩],
                data := dictInsert st.data (fieldOf st.stage) input } := by
  simp only [List.mem_cons, List.not_mem_nil, or_false] at hg
  rcases hg with h|h|h|h|h <;>
    (rw [h] at hfail; simp [fieldOf] at hfail) <;>
    simp [mainTurn, hq, h, hfail, fieldOf]

/-- C3 amended at a concrete input: the failing `ask_customers` turn
writes the `customers` field and appends only the user's message. -/
theorem C3_amended_witness :
    mainTurn failingOracle failingGen c3FailState "local families".toList =
      { c3FailState with
          messages := c3FailState.messages ++ [⟨"user", "local families".toList⟩]
          data := dictInsert c3FailState.data (fieldOf c3FailState.stage)
            "local families".toList } :=
  C3_amended failingOracle failingGen c3FailState "local families".toList
    (by decide) (by decide) rfl

/-- Inserting a fresh key into a dict appends it to the key sequence. -/
lemma dictInsert_keys_of_not_mem (d : Dict) (k : String) (v : Str)
    (h : k ∉ d.map Prod.fst) :
    (dictInsert d k v).map Prod.fst = d.map Prod.fst ++ [k] := by
  induction d with
  | nil => rfl
  | cons p rest ih =>
    obtain ⟨k', v'⟩ := p
    simp only [List.map_cons, List.mem_cons] at h
    push_neg at h
    obtain ⟨h1, h2⟩ := h
    show List.map Prod.fst
        (if k' = k then (k, v) :: rest else (k', v') :: dictInsert rest k v) = _
    rw [if_neg (fun he => h1 he.symm)]
    simp [ih h2]

/-- Past the guided stages the stage sequence reads `finished`. -/
lemma stageSeq_getD_ge_five (m : ℕ) :
    stageSeq.getD (m + 5) "finished" = "finished" := by
  match m with
  | 0 => rfl
  | k + 1 =>
    have : stageSeq.length ≤ k + 1 + 5 := by simp [stageSeq]
    simp [List.getD, List.getElem?_eq_none this]

/-- Taking past the five guided fields yields all of them. -/
lemma fieldSeq_take_ge_five (m : ℕ) : fieldSeq.take (m + 5) = fieldSeq :=
  List.take_of_length_le (by simp [fieldSeq])

/-- One guided (non-question) turn with a succeeding oracle advances the
stage index by one and appends the new stage's field key. -/
lemma mainTurn_guided_step (llm : String → Str → Dict → Str) (gen : Dict → Str)
    (st : AppState) (x : Str) (n : ℕ) (hq : looks_like_question x = false)
    (hstage : st.stage = stageSeq.getD n "finished")
    (hkeys : st.data.map Prod.fst = fieldSeq.take n) :
    (mainTurn (fun s i d => Except.ok (llm s i d)) (fun d => Except.ok (gen d))
        st x).stage = stageSeq.getD (n + 1) "finished" ∧
    (mainTurn (fun s i d => Except.ok (llm s i d)) (fun d => Except.ok (gen d))
        st x).data.map Prod.fst = fieldSeq.take (n + 1) := by
  match n with
  | 0 =>
    have hk := dictInsert_keys_of_not_mem st.data "background" x
      (by rw [hkeys]; decide)
    rw [show stageSeq.getD 0 "finished" = "ask_background" from rfl] at hstage
    constructor <;> simp [mainTurn, hstage, hq, hk, hkeys, stageSeq, fieldSeq]
  | 1 =>
    have hk := dictInsert_keys_of_not_mem st.data "idea" x
      (by rw [hkeys]; decide)
    rw [show stageSeq.getD 1 "finished" = "ask_idea" from rfl] at hstage
    constructor <;> simp [mainTurn, hstage, hq, hk, hkeys, stageSeq, fieldSeq]
  | 2 =>
    have hk := dictInsert_keys_of_not_mem st.data "customers" x
      (by rw [hkeys]; decide)
    rw [show stageSeq.getD 2 "finished" = "ask_customers" from rfl] at hstage
    constructor <;> simp [mainTurn, hstage, hq, hk, hkeys, stageSeq, fieldSeq]
  | 3 =>
    have hk := dictInsert_keys_of_not_mem st.data "competitors" x
      (by rw [hkeys]; decide)
    rw [show stageSeq.getD 3 "finished" = "ask_competitors" from rfl] at hstage
    constructor <;> simp [mainTurn, hstage, hq, hk, hkeys, stageSeq, fieldSeq]
  | 4 =>
    have hk := dictInsert_keys_of_not_mem st.data "location" x
      (by rw [hkeys]; decide)
    rw [show stageSeq.getD 4 "finished" = "ask_location" from rfl] at hstage
    constructor <;> simp [mainTurn, hstage, hq, hk, hkeys, stageSeq, fieldSeq]
  | m + 5 =>
    rw [stageSeq_getD_ge_five] at hstage
    rw [show m + 5 + 1 = (m + 1) + 5 by omega, stageSeq_getD_ge_five,
      fieldSeq_take_ge_five]
    rw [fieldSeq_take_ge_five] at hkeys
    constructor <;> simp [mainTurn, hstage, hq, hkeys]

/-- Folding guided turns from a state at stage index `n` lands at stage
index `n` plus the number of turns, with the field keys to match. -/
lemma runGuided_inv (llm : String → Str → Dict → Str) (gen : Dict → Str)
    (xs : List Str) :
    ∀ (st : AppState) (n : ℕ),
      (∀ x ∈ xs, looks_like_question x = false) →
      st.stage = stageSeq.getD n "finished" →
      st.data.map Prod.fst = fieldSeq.take n →
      (xs.foldl (mainTurn (fun s i d => Except.ok (llm s i d))
          (fun d => Except.ok (gen d))) st).stage
        = stageSeq.getD (n + xs.length) "finished" ∧
      (xs.foldl (mainTurn (fun s i d => Except.ok (llm s i d))
          (fun d => Except.ok (gen d))) st).data.map Prod.fst
        = fieldSeq.take (n + xs.length) := by
  induction xs with
  | nil =>
    intro st n _ h1 h2
    simp only [List.foldl_nil, List.length_nil, Nat.add_zero]
    exact ⟨h1, h2⟩
  | cons x xs ih =>
    intro st n hq h1 h2
    obtain ⟨hs, hk⟩ := mainTurn_guided_step llm gen st x n (hq x (List.mem_cons_self x xs)) h1 h2
    have h := ih (mainTurn (fun s i d => Except.ok (llm s i d))
        (fun d => Except.ok (gen d)) st x) (n + 1)
      (fun y hy => hq y (List.mem_cons_of_mem x hy)) hs hk
    rw [show n + (x :: xs).length = (n + 1) + xs.length by simp; omega]
    simpa using h

/-- C1: from a fresh session, any number of guided (non-question) inputs
with a succeeding oracle leaves the stage at position `min(turns, 5)` of
`ask_background, ask_idea, ask_customers, ask_competitors, ask_location,
finished` (so the stages are visited in exactly that order, `finished`
absorbing), and the collected field keys are exactly the first
`min(turns, 5)` of `background, idea, customers, competitors, location`
(one new key per guided transition). -/
theorem C1_stage_monotone (llm : String → Str → Dict → Str) (gen : Dict → Str)
    (inputs : List Str) (hq : ∀ x ∈ inputs, looks_like_question x = false)
    (n : ℕ) :
    (runTurns (fun s i d => Except.ok (llm s i d)) (fun d => Except.ok (gen d))
        (inputs.take n)).stage
      = stageSeq.getD (inputs.take n).length "finished" ∧
    (runTurns (fun s i d => Except.ok (llm s i d)) (fun d => Except.ok (gen d))
        (inputs.take n)).data.map Prod.fst
      = fieldSeq.take (inputs.take n).length := by
  have h := runGuided_inv llm gen (inputs.take n) initState 0
    (fun x hx => hq x (List.mem_of_mem_take hx)) rfl rfl
  simpa using h

/-- C1 at a concrete input: six guided answers land the session on
`finished`. -/
theorem C1_stage_monotone_witness :
    (runTurns (fun _ _ _ => Except.ok "f".toList) (fun _ => Except.ok "s".toList)
        (["a".toList, "b".toList, "c".toList, "d".toList, "e".toList,
          "g".toList].take 6)).stage = "finished" :=
  ((C1_stage_monotone (fun _ _ _ => "f".toList) (fun _ => "s".toList)
      ["a".toList, "b".toList, "c".toList, "d".toList, "e".toList, "g".toList]
      (by decide) 6).1).trans (by decide)

/-- A map-sum ignores elements on which the function vanishes. -/
lemma sum_map_filter_eq {α : Type} (l : List α) (p : α → Bool) (f : α → ℝ)
    (h : ∀ a ∈ l, p a = false → f a = 0) :
    ((l.filter p).map f).sum = (l.map f).sum := by
  induction l with
  | nil => rfl
  | cons a l ih =>
    have ih' := ih (fun b hb hbf => h b (List.mem_cons_of_mem a hb) hbf)
    by_cases hp : p a = true
    · simp [List.filter_cons, hp, ih']
    · have hpa : p a = false := by revert hp; cases p a <;> simp
      simp [List.filter_cons, hpa, h a (List.mem_cons_self a l) hpa, ih']

/-- A term absent from the passage contributes no score. -/
lemma bm25TermScore_of_count_zero (docs : List (List Str)) (t : Str)
    (d : List Str) (h : d.count t = 0) : bm25TermScore docs t d = 0 := by
  simp [bm25TermScore, h]

/-- C6: the relevance score is the §4.2 BM25 sum over the query terms
present in the passage, with `k1 = 1.5` and `b = 0.75`. -/
theorem C6_score_formula (docs : List (List Str)) (q : List Str) (d : List Str) :
    bm25Score docs q d =
      ((q.dedup.filter (fun t => decide (0 < d.count t))).map
        (fun t => (d.count t : ℝ) * (bm25K1 + 1) /
          ((d.count t : ℝ) + bm25K1 * (1 - bm25B + bm25B * d.length / bm25Avgdl docs))
          * bm25Idf docs t)).sum ∧
    bm25K1 = 1.5 ∧ bm25B = 0.75 := by
  refine ⟨?_, rfl, rfl⟩
  refine (sum_map_filter_eq q.dedup _ _ ?_).symm
  intro t ht htf
  have hz : d.count t = 0 := by
    simp only [decide_eq_false_iff_not, Nat.not_lt, Nat.le_zero] at htf
    exact htf
  exact bm25TermScore_of_count_zero docs t d hz

/-- A joined non-empty list starts with its first element. -/
lemma intercalate_cons_eq (sep x : Str) (xs : List Str) :
    ∃ t, List.intercalate sep (x :: xs) = x ++ t := by
  cases xs with
  | nil => exact ⟨[], by simp [List.intercalate]⟩
  | cons y ys =>
    exact ⟨(sep :: (y :: ys).intersperse sep).flatten, by
      simp [List.intercalate, List.intersperse]⟩

/-- Joining a non-empty bullet list never yields the empty text. -/
lemma intercalate_cons_ne_nil (sep x : Str) (xs : List Str) (hx : x ≠ []) :
    List.intercalate sep (x :: xs) ≠ [] := by
  obtain ⟨t, ht⟩ := intercalate_cons_eq sep x xs
  rw [ht]
  intro hcontra
  exact hx (List.append_eq_nil.mp hcontra).1

/-- C8: the context block is the fixed fallback exactly when retrieval
returns nothing (in particular on an empty corpus), otherwise the ranked
chunks bulleted with 300-character truncation and the `...` marker; it
is never empty. -/
theorem C8_context_block (corpus : List Record) (stage : String) (ans : Str)
    (data : Dict) :
    (get_relevant_snippets corpus (retrievalQuery stage data ans) 3 (1/2) = [] →
      llm_feedback_context corpus stage ans data = fallbackContext) ∧
    (corpus = [] → llm_feedback_context corpus stage ans data = fallbackContext) ∧
    (∀ c cs, get_relevant_snippets corpus (retrievalQuery stage data ans) 3 (1/2)
        = c :: cs →
      llm_feedback_context corpus stage ans data =
        List.intercalate "\n\n".toList ((c :: cs).map
          (fun p => "- ".toList ++ (contentAt corpus p.1).take 300 ++ "...".toList))) ∧
    llm_feedback_context corpus stage ans data ≠ [] := by
  have hempty : ∀ h : get_relevant_snippets corpus (retrievalQuery stage data ans) 3 (1/2) = [],
      llm_feedback_context corpus stage ans data = fallbackContext := by
    intro h
    unfold llm_feedback_context
    rw [h]
  have hcons : ∀ (c : ℕ × ℝ) (cs : List (ℕ × ℝ)),
      get_relevant_snippets corpus (retrievalQuery stage data ans) 3 (1/2) = c :: cs →
      llm_feedback_context corpus stage ans data =
        List.intercalate "\n\n".toList ((c :: cs).map
          (fun p => "- ".toList ++ (contentAt corpus p.1).take 300 ++ "...".toList)) := by
    intro c cs h
    unfold llm_feedback_context
    rw [h]
    rfl
  refine ⟨hempty, ?_, hcons, ?_⟩
  · intro h
    subst h
    exact hempty (by simp [get_relevant_snippets])
  · cases hc : get_relevant_snippets corpus (retrievalQuery stage data ans) 3 (1/2) with
    | nil => rw [hempty hc]; decide
    | cons c cs =>
      rw [hcons c cs hc]
      exact intercalate_cons_ne_nil _ _ _ (by simp)

/-- The ranking order is transitive. -/
lemma rankLE_trans (a b c : ℕ × ℝ) (hab : rankLE a b = true)
    (hbc : rankLE b c = true) : rankLE a c = true := by
  simp only [rankLE, decide_eq_true_iff] at hab hbc ⊢
  rcases hab with h1 | ⟨h1, h1'⟩ <;> rcases hbc with h2 | ⟨h2, h2'⟩
  · exact Or.inl (h2.trans h1)
  · exact Or.inl (h2 ▸ h1)
  · exact Or.inl (by rw [h1]; exact h2)
  · exact Or.inr ⟨h1.trans h2, h1'.trans h2'⟩

/-- The ranking order is total. -/
lemma rankLE_total (a b : ℕ × ℝ) : (rankLE a b || rankLE b a) = true := by
  simp only [rankLE, Bool.or_eq_true, decide_eq_true_iff]
  rcases lt_trichotomy a.2 b.2 with h | h | h
  · exact Or.inr (Or.inl h)
  · rcases Nat.le_total a.1 b.1 with h' | h'
    · exact Or.inl (Or.inr ⟨h, h'⟩)
    · exact Or.inr (Or.inr ⟨h.symm, h'⟩)
  · exact Or.inl (Or.inl h)

/-- The retrieval pipeline keeps at most `k` entries. -/
lemma pipeline_length (scores : List ℝ) (k : ℕ) (min_score : ℝ) :
    ((((scores.enum.mergeSort rankLE).filter
        (fun p => decide (min_score ≤ p.2))).take k)).length ≤ k :=
  List.length_take_le k _

/-- Every entry the pipeline keeps passed the score threshold. -/
lemma pipeline_min_score (scores : List ℝ) (k : ℕ) (min_score : ℝ) :
    ∀ p ∈ (((scores.enum.mergeSort rankLE).filter
        (fun p => decide (min_score ≤ p.2))).take k), min_score ≤ p.2 := by
  intro p hp
  have := List.of_mem_filter (List.mem_of_mem_take hp)
  exact decide_eq_true_iff.mp this

/-- The pipeline's output is sorted: strictly descending score, ties in
ascending original-index order. -/
lemma pipeline_pairwise (scores : List ℝ) (k : ℕ) (min_score : ℝ) :
    ((((scores.enum.mergeSort rankLE).filter
        (fun p => decide (min_score ≤ p.2))).take k)).Pairwise
      (fun a b => b.2 < a.2 ∨ (a.2 = b.2 ∧ a.1 < b.1)) := by
  have hsorted : (scores.enum.mergeSort rankLE).Pairwise
      (fun a b => rankLE a b = true) :=
    List.sorted_mergeSort rankLE_trans rankLE_total scores.enum
  have hperm : ((scores.enum.mergeSort rankLE).map Prod.fst).Perm
      (scores.enum.map Prod.fst) := (List.mergeSort_perm scores.enum rankLE).map _
  have hnodup : ((scores.enum.mergeSort rankLE).map Prod.fst).Nodup := by
    rw [hperm.nodup_iff, List.enum_map_fst]
    exact List.nodup_range _
  have hne : (scores.enum.mergeSort rankLE).Pairwise (fun a b => a.1 ≠ b.1) :=
    List.pairwise_map.mp hnodup
  have hstrict : (scores.enum.mergeSort rankLE).Pairwise
      (fun a b => b.2 < a.2 ∨ (a.2 = b.2 ∧ a.1 < b.1)) := by
    refine (hsorted.and hne).imp ?_
    rintro a b ⟨hle, hab⟩
    simp only [rankLE, decide_eq_true_iff] at hle
    rcases hle with h | ⟨h, h'⟩
    · exact Or.inl h
    · exact Or.inr ⟨h, lt_of_le_of_ne h' hab⟩
  exact hstrict.sublist ((List.take_sublist _ _).trans (List.filter_sublist _))

/-- If every score is zero and the threshold positive, nothing passes. -/
lemma pipeline_all_below (scores : List ℝ) (k : ℕ) (min_score : ℝ)
    (hmin : 0 < min_score) (hz : ∀ s ∈ scores, s = 0) :
    (((scores.enum.mergeSort rankLE).filter
        (fun p => decide (min_score ≤ p.2))).take k) = [] := by
  have hfil : (scores.enum.mergeSort rankLE).filter
      (fun p => decide (min_score ≤ p.2)) = [] := by
    rw [List.filter_eq_nil_iff]
    intro p hp
    have hp2 : p.2 ∈ scores := by
      have h1 : p ∈ scores.enum := List.mem_mergeSort.mp hp
      have h2 := List.mem_map_of_mem Prod.snd h1
      rwa [List.enum_map_snd] at h2
    have : p.2 = 0 := hz p.2 hp2
    simp [this, not_le, hmin]
  rw [hfil]
  exact List.take_nil

/-- C2: the retrieval contract — empty output on an empty corpus or a
query with no tokens (threshold positive, as the 0.5 default is); at
most `k` results; every kept score at least `min_score`; sorted by
strictly decreasing score with ties in original passage order. -/
theorem C2_query_contract (corpus : List Record) (query : Str) (k : ℕ)
    (min_score : ℝ) :
    (corpus = [] → get_relevant_snippets corpus query k min_score = []) ∧
    (0 < min_score → pyTokenize query = [] →
      get_relevant_snippets corpus query k min_score = []) ∧
    (get_relevant_snippets corpus query k min_score).length ≤ k ∧
    (∀ p ∈ get_relevant_snippets corpus query k min_score, min_score ≤ p.2) ∧
    (get_relevant_snippets corpus query k min_score).Pairwise
      (fun a b => b.2 < a.2 ∨ (a.2 = b.2 ∧ a.1 < b.1)) := by
  by_cases hguard : query = [] ∨ corpus = []
  · have hnil : get_relevant_snippets corpus query k min_score = [] := by
      unfold get_relevant_snippets
      rw [if_pos hguard]
    rw [hnil]
    exact ⟨fun _ => rfl, fun _ _ => rfl, by simp, by simp, List.Pairwise.nil⟩
  · have heq : get_relevant_snippets corpus query k min_score =
        ((((corpusTokens corpus).map (fun d =>
            bm25Score (corpusTokens corpus) (pyTokenize query) d)).enum.mergeSort
          rankLE).filter (fun p => decide (min_score ≤ p.2))).take k := by
      unfold get_relevant_snippets
      rw [if_neg hguard]
    rw [heq]
    refine ⟨fun hc => absurd (Or.inr hc) hguard, ?_, pipeline_length _ _ _,
      pipeline_min_score _ _ _, pipeline_pairwise _ _ _⟩
    intro hmin hq
    refine pipeline_all_below _ _ _ hmin ?_
    intro s hs
    obtain ⟨d, _, hd⟩ := List.mem_map.mp hs
    rw [hq] at hd
    simpa [bm25Score] using hd.symm


/-- The two-passage corpus of the spec's Scenario A. -/
def scenarioCorpus : List Record :=
  [⟨some "customer segmentation and target market basics".toList⟩,
   ⟨some "pricing strategy for small shops".toList⟩]

/-- Scenario A's first passage, tokenized. -/
def scenarioDoc1 : List Str :=
  ["customer".toList, "segmentation".toList, "and".toList, "target".toList,
   "market".toList, "basics".toList]

/-- Scenario A's second passage, tokenized. -/
def scenarioDoc2 : List Str :=
  ["pricing".toList, "strategy".toList, "for".toList, "small".toList,
   "shops".toList]

/-- Scenario A's query, tokenized. -/
def scenarioQuery : List Str :=
  ["who".toList, "are".toList, "my".toList, "target".toList,
   "customers".toList]

/-- A score is zero when every query term misses the passage. -/
lemma bm25Score_eq_zero (docs : List (List Str)) (q : List Str) (d : List Str)
    (h : ∀ t ∈ q, d.count t = 0) : bm25Score docs q d = 0 := by
  rw [bm25Score]
  apply List.sum_eq_zero
  intro x hx
  obtain ⟨t, ht, rfl⟩ := List.mem_map.mp hx
  exact bm25TermScore_of_count_zero docs t d (h t (List.mem_dedup.mp ht))

/-- C9: on Scenario A's two-passage corpus with the query "who are my
target customers", passage 1 (customer segmentation…) scores strictly
above passage 2 (pricing strategy…): only passage 1 shares the query
term "target", whose idf is log 2 > 0, while passage 2 scores zero. -/
theorem C9_scenario_ranking :
    bm25Score (corpusTokens scenarioCorpus)
        (pyTokenize "who are my target customers".toList)
        ((corpusTokens scenarioCorpus).getD 1 [])
      < bm25Score (corpusTokens scenarioCorpus)
          (pyTokenize "who are my target customers".toList)
          ((corpusTokens scenarioCorpus).getD 0 []) := by
  have hdocs : corpusTokens scenarioCorpus = [scenarioDoc1, scenarioDoc2] := by
    decide
  have hq : pyTokenize "who are my target customers".toList = scenarioQuery := by
    decide
  rw [hdocs, hq]
  rw [show ([scenarioDoc1, scenarioDoc2].getD 1 []) = scenarioDoc2 from rfl,
    show ([scenarioDoc1, scenarioDoc2].getD 0 []) = scenarioDoc1 from rfl]
  have hz : bm25Score [scenarioDoc1, scenarioDoc2] scenarioQuery scenarioDoc2
      = 0 := by
    apply bm25Score_eq_zero
    intro t ht
    fin_cases ht <;> decide
  have h1 : bm25Score [scenarioDoc1, scenarioDoc2] scenarioQuery scenarioDoc1
      = bm25TermScore [scenarioDoc1, scenarioDoc2] "target".toList scenarioDoc1 := by
    rw [bm25Score, show scenarioQuery.dedup = scenarioQuery from by decide]
    rw [show scenarioQuery = ["who".toList, "are".toList, "my".toList,
      "target".toList, "customers".toList] from rfl]
    simp only [List.map_cons, List.map_nil, List.sum_cons, List.sum_nil]
    rw [bm25TermScore_of_count_zero _ _ _ (by decide :
        scenarioDoc1.count "who".toList = 0),
      bm25TermScore_of_count_zero _ _ _ (by decide :
        scenarioDoc1.count "are".toList = 0),
      bm25TermScore_of_count_zero _ _ _ (by decide :
        scenarioDoc1.count "my".toList = 0),
      bm25TermScore_of_count_zero _ _ _ (by decide :
        scenarioDoc1.count "customers".toList = 0)]
    ring
  have havg : bm25Avgdl [scenarioDoc1, scenarioDoc2] = 11 / 2 := by
    simp only [bm25Avgdl, List.map_cons, List.map_nil, List.sum_cons,
      List.sum_nil]
    rw [show scenarioDoc1.length = 6 from by decide,
      show scenarioDoc2.length = 5 from by decide,
      show ([scenarioDoc1, scenarioDoc2] : List (List Str)).length = 2 from rfl]
    norm_num
  have hidf : bm25Idf [scenarioDoc1, scenarioDoc2] "target".toList
      = Real.log 2 := by
    simp only [bm25Idf]
    rw [show ([scenarioDoc1, scenarioDoc2].countP
        (fun d => decide ("target".toList ∈ d))) = 1 from by decide,
      show ([scenarioDoc1, scenarioDoc2] : List (List Str)).length = 2 from rfl]
    norm_num
  have hpos : 0 < bm25TermScore [scenarioDoc1, scenarioDoc2] "target".toList
      scenarioDoc1 := by
    simp only [bm25TermScore]
    rw [show scenarioDoc1.count "target".toList = 1 from by decide,
      show scenarioDoc1.length = 6 from by decide, havg, hidf, bm25K1, bm25B]
    have hlog : 0 < Real.log 2 := Real.log_pos (by norm_num)
    push_cast
    refine mul_pos (by norm_num) hlog
  rw [hz, h1]
  exact hpos
